import Mathlib

/-!
Shallow embedding of the Go URL-shortener (src/main.go) and proofs of its
specification claims.  Machine words are modelled as `Nat` with explicit
`% 2^32` where 32-bit overflow matters; byte strings are `List Nat` of
values below 256.
-/

namespace UrlShortener

/-! Section: UTF-8 encoding of strings (Go `[]byte(s)` on a `string`) -/

/-- UTF-8 encoding of a single unicode scalar value, as Go produces for
each rune of a string. -/
def utf8EncodeChar (c : Char) : List Nat :=
  let n := c.toNat
  if n < 0x80 then [n]
  else if n < 0x800 then
    [0xC0 ||| (n >>> 6), 0x80 ||| (n &&& 0x3F)]
  else if n < 0x10000 then
    [0xE0 ||| (n >>> 12), 0x80 ||| ((n >>> 6) &&& 0x3F), 0x80 ||| (n &&& 0x3F)]
  else
    [0xF0 ||| (n >>> 18), 0x80 ||| ((n >>> 12) &&& 0x3F),
     0x80 ||| ((n >>> 6) &&& 0x3F), 0x80 ||| (n &&& 0x3F)]

/-- The UTF-8 bytes of a string: Go's `[]byte(originalURL)`. -/
def strBytes (s : String) : List Nat :=
  s.data.foldr (fun c acc => utf8EncodeChar c ++ acc) []

/-! Section: MD5 (`crypto/md5`)

The digest used by `generateShortURL`.  State words are `Nat` kept below
`2^32` by explicit reduction. -/

/-- Left-rotation of a 32-bit word. -/
def rotl32 (x n : Nat) : Nat :=
  ((x <<< n) % 4294967296) ||| (x >>> (32 - n))

/-- The 64 MD5 round constants `K[i] = floor(2^32 * |sin(i+1)|)`. -/
def md5K : List Nat :=
  [0xd76aa478, 0xe8c7b756, 0x242070db, 0xc1bdceee,
   0xf57c0faf, 0x4787c62a, 0xa8304613, 0xfd469501,
   0x698098d8, 0x8b44f7af, 0xffff5bb1, 0x895cd7be,
   0x6b901122, 0xfd987193, 0xa679438e, 0x49b40821,
   0xf61e2562, 0xc040b340, 0x265e5a51, 0xe9b6c7aa,
   0xd62f105d, 0x02441453, 0xd8a1e681, 0xe7d3fbc8,
   0x21e1cde6, 0xc33707d6, 0xf4d50d87, 0x455a14ed,
   0xa9e3e905, 0xfcefa3f8, 0x676f02d9, 0x8d2a4c8a,
   0xfffa3942, 0x8771f681, 0x6d9d6122, 0xfde5380c,
   0xa4beea44, 0x4bdecfa9, 0xf6bb4b60, 0xbebfbc70,
   0x289b7ec6, 0xeaa127fa, 0xd4ef3085, 0x04881d05,
   0xd9d4d039, 0xe6db99e5, 0x1fa27cf8, 0xc4ac5665,
   0xf4292244, 0x432aff97, 0xab9423a7, 0xfc93a039,
   0x655b59c3, 0x8f0ccc92, 0xffeff47d, 0x85845dd1,
   0x6fa87e4f, 0xfe2ce6e0, 0xa3014314, 0x4e0811a1,
   0xf7537e82, 0xbd3af235, 0x2ad7d2bb, 0xeb86d391]

/-- The 64 MD5 per-round shift amounts. -/
def md5S : List Nat :=
  [7, 12, 17, 22, 7, 12, 17, 22, 7, 12, 17, 22, 7, 12, 17, 22,
   5,  9, 14, 20, 5,  9, 14, 20, 5,  9, 14, 20, 5,  9, 14, 20,
   4, 11, 16, 23, 4, 11, 16, 23, 4, 11, 16, 23, 4, 11, 16, 23,
   6, 10, 15, 21, 6, 10, 15, 21, 6, 10, 15, 21, 6, 10, 15, 21]

/-- MD5 nonlinear function for round `i` on words `b c d`. -/
def md5F (i b c d : Nat) : Nat :=
  if i < 16 then (b &&& c) ||| ((b ^^^ 0xFFFFFFFF) &&& d)
  else if i < 32 then (d &&& b) ||| ((d ^^^ 0xFFFFFFFF) &&& c)
  else if i < 48 then b ^^^ c ^^^ d
  else c ^^^ (b ||| (d ^^^ 0xFFFFFFFF))

/-- Message-word index used by round `i`. -/
def md5G (i : Nat) : Nat :=
  if i < 16 then i
  else if i < 32 then (5 * i + 1) % 16
  else if i < 48 then (3 * i + 5) % 16
  else (7 * i) % 16

/-- The four 32-bit chaining words of MD5. -/
structure MD5State where
  a : Nat
  b : Nat
  c : Nat
  d : Nat
deriving DecidableEq

/-- MD5 initial chaining value. -/
def md5Init : MD5State := ⟨0x67452301, 0xefcdab89, 0x98badcfe, 0x10325476⟩

/-- Byte `i` of a byte list (0 past the end). -/
def byteAt (l : List Nat) (i : Nat) : Nat := l.getD i 0

/-- Little-endian 32-bit message word `i` of a 64-byte block. -/
def wordAt (block : List Nat) (i : Nat) : Nat :=
  byteAt block (4 * i) + byteAt block (4 * i + 1) * 256 +
    byteAt block (4 * i + 2) * 65536 + byteAt block (4 * i + 3) * 16777216

/-- One MD5 round `i` on the working state, reading message words from `block`. -/
def md5Round (block : List Nat) (st : MD5State) (i : Nat) : MD5State :=
  let f := (md5F i st.b st.c st.d + st.a + md5K.getD i 0 + wordAt block (md5G i))
             % 4294967296
  ⟨st.d, (st.b + rotl32 f (md5S.getD i 0)) % 4294967296, st.b, st.c⟩

/-- MD5 compression of one 64-byte block into the chaining state. -/
def md5Block (st : MD5State) (block : List Nat) : MD5State :=
  let fin := (List.range 64).foldl (md5Round block) st
  ⟨(st.a + fin.a) % 4294967296, (st.b + fin.b) % 4294967296,
   (st.c + fin.c) % 4294967296, (st.d + fin.d) % 4294967296⟩

/-- The original bit length as 8 little-endian bytes (mod `2^64`). -/
def lenBytes (n : Nat) : List Nat :=
  (List.range 8).map (fun i => (n >>> (8 * i)) % 256)

/-- MD5 padding: `0x80`, zeros to 56 mod 64, then the 64-bit bit length. -/
def md5Pad (msg : List Nat) : List Nat :=
  let len := msg.length
  let k := (119 - len % 64) % 64
  msg ++ [0x80] ++ List.replicate k 0 ++ lenBytes (len * 8)

/-- Split a byte list into 64-byte chunks (fuel-based structural recursion;
`l.length` steps of fuel always suffice). -/
def chunks64Aux : Nat → List Nat → List (List Nat)
  | 0, _ => []
  | _, [] => []
  | fuel + 1, l => l.take 64 :: chunks64Aux fuel (l.drop 64)

/-- Split a byte list into 64-byte chunks. -/
def chunks64 (l : List Nat) : List (List Nat) := chunks64Aux l.length l

/-- A 32-bit word as 4 little-endian bytes. -/
def wordLE (x : Nat) : List Nat :=
  [x % 256, (x >>> 8) % 256, (x >>> 16) % 256, (x >>> 24) % 256]

/-- The 16-byte MD5 digest of a byte string (`md5.Sum`). -/
def md5Bytes (msg : List Nat) : List Nat :=
  let st := (chunks64 (md5Pad msg)).foldl md5Block md5Init
  wordLE st.a ++ wordLE st.b ++ wordLE st.c ++ wordLE st.d

/-! Section: Lowercase hex encoding (`encoding/hex.EncodeToString`) -/

/-- Hex digit character for a nibble, lowercase (Go's `"0123456789abcdef"[n]`). -/
def hexDigit (n : Nat) : Char :=
  if n < 10 then Char.ofNat (48 + n) else Char.ofNat (87 + n)

/-- Hex characters of a byte list, high nibble first. -/
def hexChars : List Nat → List Char
  | [] => []
  | b :: rest => hexDigit (b / 16) :: hexDigit (b % 16) :: hexChars rest

/-- Go `hex.EncodeToString` on a byte list. -/
def hexEncode (bs : List Nat) : String := ⟨hexChars bs⟩

/-! Section: `generateShortURL` (src/main.go lines 22-28) -/

/-- The function `generateShortURL`: the first 8 characters of the lowercase hex MD5
digest of the URL's UTF-8 bytes (`hash[:8]`; hex output is ASCII, so the
Go byte slice is the character take). -/
def generateShortURL (OriginalURL : String) : String :=
  ⟨(hexChars (md5Bytes (strBytes OriginalURL))).take 8⟩

/-! Section: Data model and store (src/main.go lines 13-48)

`urlDB` is a Go `map[string]URL`; it is modelled as an association list
with at most one entry per key, where assignment `urlDB[id] = v` replaces
the entry for an existing key and otherwise appends.  `time.Time` is
modelled as an abstract `Nat` tick supplied by the caller of `createURL`
(explicit effect passing for `time.Now()`). -/

/-- The `URL` record stored in `urlDB`. -/
structure URL where
  ID : String
  OriginalURL : String
  ShortURL : String
  CreationDate : Nat
deriving DecidableEq

/-- The state of the global `urlDB` map. -/
abbrev Store := List (String × URL)

/-- Go map read `urlDB[id]` (with its `ok` flag as `Option`). -/
def lookupStore : Store → String → Option URL
  | [], _ => none
  | (k, v) :: rest, id => if k = id then some v else lookupStore rest id

/-- Go map assignment `urlDB[id] = v`: replace the entry for `id` if one
exists, otherwise add one. -/
def insertStore : Store → String → URL → Store
  | [], k, v => [(k, v)]
  | (k', v') :: rest, k, v =>
      if k' = k then (k, v) :: rest else (k', v') :: insertStore rest k v

/-- Number of rows of the store whose key is `id`. -/
def rowCount (db : Store) (id : String) : Nat :=
  db.countP (fun p => p.1 = id)

/-- The keys of the store hold no duplicates (true of every Go map). -/
def storeKeysNodup (db : Store) : Prop :=
  (db.map Prod.fst).Nodup

instance (db : Store) : Decidable (storeKeysNodup db) :=
  inferInstanceAs (Decidable (List.Nodup _))

/-- The function `createURL` (src/main.go lines 30-40): derive the id and assign the
record into `urlDB`, returning the short id and the new map state.
`now` stands for `time.Now()`. -/
def createURL (db : Store) (originalURL : String) (now : Nat) : String × Store :=
  let shortURL := generateShortURL originalURL
  let id := shortURL
  (shortURL, insertStore db id ⟨id, originalURL, shortURL, now⟩)

/-- The function `getURL` (src/main.go lines 42-48): map lookup, `errors.New` on miss. -/
def getURL (db : Store) (id : String) : Except String URL :=
  match lookupStore db id with
  | some url => .ok url
  | none => .error "URL not found"

/-! Section: HTTP boundary (src/main.go lines 54-93)

Responses are modelled structurally: status code, body, and the
`Location` header set by `http.Redirect`.  The JSON response written by
`json.NewEncoder(w).Encode` is kept as its single field. -/

/-- A response body: plain text from `http.Error`/`Redirect`, or the
JSON object `{"short_url": ...}` produced by the encoder. -/
inductive Body where
  | text : String → Body
  | jsonShortUrl : String → Body
deriving DecidableEq

/-- An HTTP response as the handlers produce it. -/
structure Response where
  status : Nat
  body : Body
  location : Option String
deriving DecidableEq

/-! Section: Model of `encoding/json` decoding (external collaborator)

`ShortUrlHandler` decodes the request body with
`json.NewDecoder(r.Body).Decode(&data)` into `struct { URL string }` with
tag `json:"url"`.  The decoder reads the first JSON value of the body
(trailing bytes are not an error), fails on malformed syntax or on a
top-level value that is not an object or `null`, matches the `url` key
case-insensitively, leaves the field at its zero value `""` when the key
is absent or `null`, and fails when the key holds a non-string value.
`\uXXXX` escapes are decoded as single scalar values (surrogate-pair
recombination is not modelled). -/

/-- A parsed JSON value (numbers need no payload for this model). -/
inductive JValue where
  | null : JValue
  | bool : Bool → JValue
  | num : JValue
  | str : String → JValue
  | arr : List JValue → JValue
  | obj : List (String × JValue) → JValue

/-- Skip JSON whitespace. -/
def skipWs : List Char → List Char
  | c :: rest =>
      if c = ' ' ∨ c = '\t' ∨ c = '\n' ∨ c = '\r' then skipWs rest else c :: rest
  | [] => []

/-- Value of a hex digit character. -/
def hexVal (c : Char) : Option Nat :=
  if '0' ≤ c ∧ c ≤ '9' then some (c.toNat - 48)
  else if 'a' ≤ c ∧ c ≤ 'f' then some (c.toNat - 87)
  else if 'A' ≤ c ∧ c ≤ 'F' then some (c.toNat - 55)
  else none

/-- Read exactly four hex digits. -/
def parseHex4 : List Char → Option (Nat × List Char)
  | c1 :: c2 :: c3 :: c4 :: rest =>
      match hexVal c1, hexVal c2, hexVal c3, hexVal c4 with
      | some n1, some n2, some n3, some n4 =>
          some (n1 * 4096 + n2 * 256 + n3 * 16 + n4, rest)
      | _, _, _, _ => none
  | _ => none

/-- Parse the body of a JSON string after the opening quote, returning its
characters and the remainder after the closing quote. -/
def parseStringBody : Nat → List Char → Option (List Char × List Char)
  | 0, _ => none
  | fuel + 1, cs =>
    match cs with
    | [] => none
    | '"' :: rest => some ([], rest)
    | '\\' :: e :: rest =>
        (match e with
         | '"' => (parseStringBody fuel rest).map (fun p => ('"' :: p.1, p.2))
         | '\\' => (parseStringBody fuel rest).map (fun p => ('\\' :: p.1, p.2))
         | '/' => (parseStringBody fuel rest).map (fun p => ('/' :: p.1, p.2))
         | 'b' => (parseStringBody fuel rest).map (fun p => (Char.ofNat 8 :: p.1, p.2))
         | 'f' => (parseStringBody fuel rest).map (fun p => (Char.ofNat 12 :: p.1, p.2))
         | 'n' => (parseStringBody fuel rest).map (fun p => ('\n' :: p.1, p.2))
         | 'r' => (parseStringBody fuel rest).map (fun p => ('\r' :: p.1, p.2))
         | 't' => (parseStringBody fuel rest).map (fun p => ('\t' :: p.1, p.2))
         | 'u' =>
             match parseHex4 rest with
             | none => none
             | some (n, rest2) =>
                 (parseStringBody fuel rest2).map (fun p => (Char.ofNat n :: p.1, p.2))
         | _ => none)
    | c :: rest =>
        if c.toNat < 32 then none
        else (parseStringBody fuel rest).map (fun p => (c :: p.1, p.2))

/-- Consume a maximal run of decimal digits. -/
def takeDigits : List Char → List Char × List Char
  | c :: rest =>
      if c.isDigit then
        let p := takeDigits rest
        (c :: p.1, p.2)
      else ([], c :: rest)
  | [] => ([], [])

/-- Consume an optional JSON fraction part. -/
def parseFrac : List Char → Option (List Char)
  | '.' :: rest =>
      let p := takeDigits rest
      if p.1.isEmpty then none else some p.2
  | cs => some cs

/-- Consume an optional JSON exponent part. -/
def parseExp : List Char → Option (List Char)
  | c :: rest =>
      if c = 'e' ∨ c = 'E' then
        let rest2 := match rest with
                     | s :: r => if s = '+' ∨ s = '-' then r else s :: r
                     | [] => []
        let p := takeDigits rest2
        if p.1.isEmpty then none else some p.2
      else some (c :: rest)
  | [] => some []

/-- Consume a JSON number, returning the remainder. -/
def parseNumber (cs : List Char) : Option (List Char) :=
  let cs1 := match cs with
             | '-' :: rest => rest
             | _ => cs
  match cs1 with
  | '0' :: rest => (parseFrac rest).bind parseExp
  | c :: rest =>
      if c.isDigit then (parseFrac (takeDigits (c :: rest)).2).bind parseExp
      else none
  | [] => none

mutual

/-- Parse one JSON value (fuel-indexed recursive descent). -/
def parseValue : Nat → List Char → Option (JValue × List Char)
  | 0, _ => none
  | fuel + 1, cs =>
    match skipWs cs with
    | [] => none
    | 'n' :: 'u' :: 'l' :: 'l' :: rest => some (.null, rest)
    | 't' :: 'r' :: 'u' :: 'e' :: rest => some (.bool true, rest)
    | 'f' :: 'a' :: 'l' :: 's' :: 'e' :: rest => some (.bool false, rest)
    | '"' :: rest =>
        (parseStringBody (rest.length + 1) rest).map (fun p => (.str ⟨p.1⟩, p.2))
    | '[' :: rest =>
        (match skipWs rest with
         | ']' :: r => some (.arr [], r)
         | r => (parseItems fuel r).map (fun p => (.arr p.1, p.2)))
    | '{' :: rest =>
        (match skipWs rest with
         | '}' :: r => some (.obj [], r)
         | r => (parseMembers fuel r).map (fun p => (.obj p.1, p.2)))
    | c :: rest =>
        if c = '-' ∨ c.isDigit then (parseNumber (c :: rest)).map (fun r => (.num, r))
        else none

/-- Parse the comma-separated items of a non-empty JSON array. -/
def parseItems : Nat → List Char → Option (List JValue × List Char)
  | 0, _ => none
  | fuel + 1, cs =>
    match parseValue fuel cs with
    | none => none
    | some (v, rest) =>
        match skipWs rest with
        | ',' :: r => (parseItems fuel r).map (fun p => (v :: p.1, p.2))
        | ']' :: r => some ([v], r)
        | _ => none

/-- Parse the members of a non-empty JSON object. -/
def parseMembers : Nat → List Char → Option (List (String × JValue) × List Char)
  | 0, _ => none
  | fuel + 1, cs =>
    match skipWs cs with
    | '"' :: rest =>
        (match parseStringBody (rest.length + 1) rest with
         | none => none
         | some (key, rest2) =>
             match skipWs rest2 with
             | ':' :: rest3 =>
                 (match parseValue fuel rest3 with
                  | none => none
                  | some (v, rest4) =>
                      match skipWs rest4 with
                      | ',' :: r =>
                          (parseMembers fuel r).map (fun p => ((⟨key⟩, v) :: p.1, p.2))
                      | '}' :: r => some ([(⟨key⟩, v)], r)
                      | _ => none)
             | _ => none)
    | _ => none

end

/-- ASCII lowercase of a character (Go's case-insensitive field match). -/
def charLower (c : Char) : Char :=
  if 'A' ≤ c ∧ c ≤ 'Z' then Char.ofNat (c.toNat + 32) else c

/-- Whether an object key matches the struct field tag `url`. -/
def keyMatchesUrl (k : String) : Bool :=
  k.data.map charLower = ['u', 'r', 'l']

/-- Fold the object members into the `URL` field: absent or `null` leaves
the zero value, a string sets it (last wins), anything else is a decode
error. -/
def extractUrl : List (String × JValue) → Option String → Option String
  | [], acc => acc
  | (k, v) :: rest, acc =>
      if keyMatchesUrl k then
        match v with
        | .str s => extractUrl rest (some s)
        | .null => extractUrl rest acc
        | _ => none
      else extractUrl rest acc

/-- Model of `json.NewDecoder(r.Body).Decode(&data)` for
`struct { URL string }` with tag `url`: `none` is a decode error (HTTP
400 in the handler), `some u` sets `data.URL = u`. -/
def jsonDecodeUrl (body : String) : Option String :=
  match parseValue (2 * body.length + 2) body.data with
  | none => none
  | some (v, _) =>
      match v with
      | .null => some ""
      | .obj fields => extractUrl fields (some "")
      | _ => none

/-! Section: Handlers (src/main.go lines 54-93) -/

/-- The handler `ShortUrlHandler` (src/main.go lines 54-81): reject non-POST with 405,
reject undecodable bodies with 400, otherwise create the mapping and
answer 201 with `{"short_url": "http://localhost:3000/redirect/<id>"}`. -/
def ShortUrlHandler (method : String) (body : String) (db : Store) (now : Nat) :
    Response × Store :=
  if method ≠ "POST" then
    (⟨405, .text "Invalid request method", none⟩, db)
  else
    match jsonDecodeUrl body with
    | none => (⟨400, .text "Invalid request body", none⟩, db)
    | some u =>
        let r := createURL db u now
        (⟨201, .jsonShortUrl ("http://localhost:3000/redirect/" ++ r.1), none⟩, r.2)

/-- The handler `redirectURLHandler` (src/main.go lines 84-93): strip the
`/redirect/` prefix (the registered pattern guarantees it is present and
ASCII, so the Go byte slice `r.URL.Path[10:]` is the character drop),
look the id up, 404 on miss, else 302 with `Location: original_url`. -/
def redirectURLHandler (path : String) (db : Store) : Response :=
  let id := path.drop "/redirect/".length
  match getURL db id with
  | .error _ => ⟨404, .text "URL not found", none⟩
  | .ok url => ⟨302, .text "", some url.OriginalURL⟩

/-! Section: Operation sequences over the store -/

/-- A store operation: the only two entry points that touch `urlDB`. -/
inductive Op where
  | create : String → Nat → Op
  | get : String → Op

/-- Effect of one operation on the store (`getURL` reads only). -/
def stepStore (db : Store) : Op → Store
  | .create u t => (createURL db u t).2
  | .get _ => db

/-- Store reached by a sequence of operations from the empty map. -/
def runOps (ops : List Op) : Store := ops.foldl stepStore []

/-- The last `/`-separated segment of a path, read off the character list. -/
def lastPathSegment (s : String) : String :=
  ⟨(s.data.reverse.takeWhile (fun c => c ≠ '/')).reverse⟩

/-- The sixteen characters of the lowercase hex alphabet (Go's hextable). -/
def hexAlphabet : List Char := ("0123456789abcdef" : String).data

/-- The entries of the in-memory store all tie their key to the record
fields and to the derivation function. -/
def storeInv (db : Store) : Prop :=
  ∀ p ∈ db, p.1 = p.2.ID ∧ p.2.ID = p.2.ShortURL ∧
    generateShortURL p.2.OriginalURL = p.1

/-! Section: helper lemmas about the digest and hex encoding -/

theorem md5Bytes_length (msg : List Nat) : (md5Bytes msg).length = 16 := by
  simp [md5Bytes, wordLE]

theorem wordLE_lt (x : Nat) : ∀ b ∈ wordLE x, b < 256 := by
  simp only [wordLE, List.mem_cons, List.not_mem_nil, or_false]
  rintro b (rfl | rfl | rfl | rfl) <;> exact Nat.mod_lt _ (by omega)

theorem md5Bytes_lt (msg : List Nat) : ∀ b ∈ md5Bytes msg, b < 256 := by
  intro b hb
  simp only [md5Bytes, List.mem_append] at hb
  rcases hb with ((h | h) | h) | h <;> exact wordLE_lt _ b h

theorem hexChars_length (bs : List Nat) : (hexChars bs).length = 2 * bs.length := by
  induction bs with
  | nil => rfl
  | cons b rest ih => simp [hexChars, ih]; omega

theorem hexDigit_mem (n : Nat) (h : n < 16) : hexDigit n ∈ hexAlphabet := by
  interval_cases n <;> decide

theorem hexChars_mem (bs : List Nat) (hbs : ∀ b ∈ bs, b < 256) :
    ∀ c ∈ hexChars bs, c ∈ hexAlphabet := by
  induction bs with
  | nil => intro c hc; cases hc
  | cons b rest ih =>
      intro c hc
      have hb : b < 256 := hbs b (by simp)
      simp only [hexChars, List.mem_cons] at hc
      rcases hc with h | h | h
      · exact h ▸ hexDigit_mem _ (Nat.div_lt_of_lt_mul (by omega))
      · exact h ▸ hexDigit_mem _ (Nat.mod_lt _ (by omega))
      · exact ih (fun x hx => hbs x (by simp [hx])) c h

theorem generateShortURL_data (u : String) :
    (generateShortURL u).data = (hexChars (md5Bytes (strBytes u))).take 8 := rfl

theorem generateShortURL_length (u : String) : (generateShortURL u).length = 8 := by
  show ((hexChars (md5Bytes (strBytes u))).take 8).length = 8
  rw [List.length_take, hexChars_length, md5Bytes_length]
  omega

theorem generateShortURL_hex (u : String) :
    ∀ c ∈ (generateShortURL u).data, c ∈ hexAlphabet := by
  intro c hc
  rw [generateShortURL_data] at hc
  exact hexChars_mem _ (md5Bytes_lt _) c (List.take_subset 8 _ hc)

/-! Section: helper lemmas about the store -/

theorem lookup_insertStore_self (db : Store) (k : String) (v : URL) :
    lookupStore (insertStore db k v) k = some v := by
  induction db with
  | nil => simp [insertStore, lookupStore]
  | cons p rest ih =>
      obtain ⟨k', v'⟩ := p
      by_cases h : k' = k
      · simp [insertStore, h, lookupStore]
      · simp [insertStore, h, lookupStore, ih]

theorem lookup_insertStore_ne (db : Store) (k k' : String) (v : URL)
    (h : k' ≠ k) :
    lookupStore (insertStore db k v) k' = lookupStore db k' := by
  induction db with
  | nil =>
      have h2 : ¬(k = k') := Ne.symm h
      simp [insertStore, lookupStore, h2]
  | cons p rest ih =>
      obtain ⟨k'', v''⟩ := p
      by_cases hk : k'' = k
      · subst hk
        have h2 : ¬(k'' = k') := Ne.symm h
        simp [insertStore, lookupStore, h2]
      · simp only [insertStore, if_neg hk, lookupStore]
        by_cases hk' : k'' = k'
        · simp [hk']
        · simp [hk', ih]

theorem lookupStore_eq_none (db : Store) (k : String)
    (h : k ∉ db.map Prod.fst) : lookupStore db k = none := by
  induction db with
  | nil => rfl
  | cons p rest ih =>
      obtain ⟨k', v'⟩ := p
      simp only [List.map_cons, List.mem_cons] at h
      push_neg at h
      have h2 : ¬(k' = k) := Ne.symm h.1
      simp [lookupStore, h2, ih h.2]

theorem keys_insertStore_of_mem (db : Store) (k : String) (v : URL)
    (h : k ∈ db.map Prod.fst) :
    (insertStore db k v).map Prod.fst = db.map Prod.fst := by
  induction db with
  | nil => cases h
  | cons p rest ih =>
      obtain ⟨k', v'⟩ := p
      by_cases hk : k' = k
      · simp [insertStore, hk]
      · simp only [List.map_cons, List.mem_cons] at h
        rcases h with h | h
        · exact absurd h.symm hk
        · simp [insertStore, hk, ih h]

theorem keys_insertStore_of_not_mem (db : Store) (k : String) (v : URL)
    (h : k ∉ db.map Prod.fst) :
    (insertStore db k v).map Prod.fst = db.map Prod.fst ++ [k] := by
  induction db with
  | nil => rfl
  | cons p rest ih =>
      obtain ⟨k', v'⟩ := p
      simp only [List.map_cons, List.mem_cons] at h
      push_neg at h
      have h2 : ¬(k' = k) := Ne.symm h.1
      simp [insertStore, h2, ih h.2]

theorem storeKeysNodup_insertStore (db : Store) (k : String) (v : URL)
    (h : storeKeysNodup db) : storeKeysNodup (insertStore db k v) := by
  by_cases hk : k ∈ db.map Prod.fst
  · unfold storeKeysNodup
    rw [keys_insertStore_of_mem db k v hk]
    exact h
  · unfold storeKeysNodup
    rw [keys_insertStore_of_not_mem db k v hk, List.nodup_append]
    refine ⟨h, List.nodup_singleton k, ?_⟩
    intro a ha hb
    simp only [List.mem_singleton] at hb
    subst hb
    exact hk ha

theorem length_insertStore_of_mem (db : Store) (k : String) (v : URL)
    (h : k ∈ db.map Prod.fst) :
    (insertStore db k v).length = db.length := by
  induction db with
  | nil => cases h
  | cons p rest ih =>
      obtain ⟨k', v'⟩ := p
      by_cases hk : k' = k
      · simp [insertStore, hk]
      · simp only [List.map_cons, List.mem_cons] at h
        rcases h with h | h
        · exact absurd h.symm hk
        · simp [insertStore, hk, ih h]

theorem mem_keys_insertStore_self (db : Store) (k : String) (v : URL) :
    k ∈ (insertStore db k v).map Prod.fst := by
  by_cases hk : k ∈ db.map Prod.fst
  · rw [keys_insertStore_of_mem db k v hk]; exact hk
  · rw [keys_insertStore_of_not_mem db k v hk]; simp

theorem rowCount_of_not_mem (db : Store) (k : String)
    (h : k ∉ db.map Prod.fst) : rowCount db k = 0 := by
  induction db with
  | nil => rfl
  | cons p rest ih =>
      obtain ⟨k', v'⟩ := p
      simp only [List.map_cons, List.mem_cons] at h
      push_neg at h
      have h2 : ¬(k' = k) := Ne.symm h.1
      have h0 := ih h.2
      simp only [rowCount, List.countP_cons] at h0 ⊢
      simp [h2, h0]

theorem rowCount_insertStore (db : Store) (k : String) (v : URL)
    (h : storeKeysNodup db) : rowCount (insertStore db k v) k = 1 := by
  induction db with
  | nil => simp [insertStore, rowCount, List.countP_cons]
  | cons p rest ih =>
      obtain ⟨k', v'⟩ := p
      simp only [storeKeysNodup, List.map_cons, List.nodup_cons] at h
      by_cases hk : k' = k
      · subst hk
        have h0 : rowCount rest k' = 0 := rowCount_of_not_mem rest k' h.1
        simp only [insertStore, if_pos rfl, rowCount, List.countP_cons] at h0 ⊢
        simp [h0]
      · have h1 := ih h.2
        simp only [insertStore, if_neg hk, rowCount, List.countP_cons] at h1 ⊢
        simp [hk, h1]

theorem mem_insertStore (db : Store) (k : String) (v : URL)
    (p : String × URL) (hp : p ∈ insertStore db k v) :
    p = (k, v) ∨ p ∈ db := by
  induction db with
  | nil => simpa [insertStore] using hp
  | cons q rest ih =>
      obtain ⟨k', v'⟩ := q
      by_cases hk : k' = k
      · simp only [insertStore, if_pos hk, List.mem_cons] at hp
        rcases hp with hp | hp
        · exact Or.inl hp
        · exact Or.inr (List.mem_cons_of_mem _ hp)
      · simp only [insertStore, if_neg hk, List.mem_cons] at hp
        rcases hp with hp | hp
        · refine Or.inr ?_
          rw [hp]
          exact List.mem_cons_self _ _
        · rcases ih hp with h' | h'
          · exact Or.inl h'
          · exact Or.inr (List.mem_cons_of_mem _ h')

/-! Section: helper lemmas about operation sequences and paths -/

theorem lookup_foldl_stepStore (ops : List Op) (db : Store) (id : String)
    (hnever : ∀ u t, Op.create u t ∈ ops → generateShortURL u ≠ id)
    (h0 : lookupStore db id = none) :
    lookupStore (ops.foldl stepStore db) id = none := by
  induction ops generalizing db with
  | nil => exact h0
  | cons op rest ih =>
      rw [List.foldl_cons]
      cases op with
      | get gid =>
          exact ih db (fun u t hm => hnever u t (List.mem_cons_of_mem _ hm)) h0
      | create u t =>
          have hne : generateShortURL u ≠ id :=
            hnever u t (List.mem_cons_self _ _)
          refine ih _ (fun u' t' hm => hnever u' t' (List.mem_cons_of_mem _ hm)) ?_
          have hstep : stepStore db (Op.create u t) =
              insertStore db (generateShortURL u)
                ⟨generateShortURL u, u, generateShortURL u, t⟩ := rfl
          rw [hstep, lookup_insertStore_ne _ _ _ _ (Ne.symm hne), h0]

theorem storeInv_stepStore (db : Store) (op : Op) (h : storeInv db) :
    storeInv (stepStore db op) := by
  cases op with
  | get gid => exact h
  | create u t =>
      intro p hp
      have hstep : stepStore db (Op.create u t) =
          insertStore db (generateShortURL u)
            ⟨generateShortURL u, u, generateShortURL u, t⟩ := rfl
      rw [hstep] at hp
      rcases mem_insertStore _ _ _ p hp with h' | h'
      · subst h'
        exact ⟨rfl, rfl, rfl⟩
      · exact h p h'

theorem storeInv_runOps (ops : List Op) : storeInv (runOps ops) := by
  have key : ∀ db, storeInv db → storeInv (ops.foldl stepStore db) := by
    induction ops with
    | nil => exact fun db h => h
    | cons op rest ih =>
        intro db h
        rw [List.foldl_cons]
        exact ih _ (storeInv_stepStore db op h)
  refine key [] ?_
  intro p hp
  cases hp

theorem drop_redirect_pathlen (id : String) :
    (("/redirect/" ++ id) : String).drop ("/redirect/" : String).length = id := by
  apply String.ext
  rw [String.data_drop, String.data_append]
  exact List.drop_left _ _

theorem takeWhile_append_all (p : Char → Bool) (l1 l2 : List Char)
    (h : ∀ c ∈ l1, p c = true) :
    (l1 ++ l2).takeWhile p = l1 ++ l2.takeWhile p := by
  induction l1 with
  | nil => rfl
  | cons c rest ih =>
      have hc : p c = true := h c (List.mem_cons_self _ _)
      simp [List.takeWhile_cons, hc,
        ih (fun x hx => h x (List.mem_cons_of_mem _ hx))]

theorem lastPathSegment_redirect (h : String) (hh : ∀ c ∈ h.data, c ≠ '/') :
    lastPathSegment ("http://localhost:3000/redirect/" ++ h) = h := by
  apply String.ext
  show ((("http://localhost:3000/redirect/" ++ h) : String).data.reverse.takeWhile
    (fun c => c ≠ '/')).reverse = h.data
  have hall : ∀ c ∈ h.data.reverse, (fun c => decide (c ≠ '/')) c = true := by
    intro c hc
    have := hh c (List.mem_reverse.mp hc)
    simpa using this
  have ht := takeWhile_append_all (fun c => decide (c ≠ '/')) h.data.reverse
    (("http://localhost:3000/redirect/" : String).data.reverse) hall
  have hpre : (("http://localhost:3000/redirect/" : String).data.reverse).takeWhile
      (fun c => decide (c ≠ '/')) = [] := by decide
  rw [String.data_append, List.reverse_append, ht, hpre, List.append_nil,
    List.reverse_reverse]

/-! Section: the claims -/

set_option maxRecDepth 20000 in
/-- Claim C1, counterexample: `createURL` does not leave an existing stored
mapping unchanged.  With the same URL `"u"` created at tick 1 and again at
tick 2, the stored record under `derive("u")` differs after the second
create (its `CreationDate` is rewritten), so "leaves the stored mapping
(including its original_url and created_at) unchanged" fails. -/
theorem createURL_overwrites_cex :
    lookupStore (createURL (createURL [] "u" 1).2 "u" 2).2 (generateShortURL "u") ≠
      lookupStore (createURL [] "u" 1).2 (generateShortURL "u") := by
  decide

/-- Claim C1, amended: when a mapping for `derive(u)` already exists,
`createURL` succeeds, returns the existing id `derive(u)`, adds no second
row, and *replaces* the stored record with a fresh one carrying the new
`original_url` and `created_at`; two creates with the same `u` return the
same id and leave exactly one row for that id. -/
theorem createURL_idempotent (db : Store) (u : String) (t1 t2 : Nat)
    (hnd : storeKeysNodup db) :
    (createURL db u t1).1 = (createURL (createURL db u t1).2 u t2).1 ∧
    (createURL (createURL db u t1).2 u t2).2.length = (createURL db u t1).2.length ∧
    rowCount (createURL (createURL db u t1).2 u t2).2 (createURL db u t1).1 = 1 ∧
    lookupStore (createURL (createURL db u t1).2 u t2).2 (generateShortURL u) =
      some ⟨generateShortURL u, u, generateShortURL u, t2⟩ := by
  refine ⟨rfl, ?_, ?_, ?_⟩
  · exact length_insertStore_of_mem _ _ _ (mem_keys_insertStore_self db _ _)
  · exact rowCount_insertStore _ _ _ (storeKeysNodup_insertStore _ _ _ hnd)
  · exact lookup_insertStore_self _ _ _

set_option maxRecDepth 20000 in
/-- Witness for C1's amended theorem at the empty store, URL `"u"`,
ticks 1 and 2. -/
theorem createURL_idempotent_witness :
    storeKeysNodup [] ∧
    ((createURL [] "u" 1).1 = (createURL (createURL [] "u" 1).2 "u" 2).1 ∧
     (createURL (createURL [] "u" 1).2 "u" 2).2.length =
       (createURL [] "u" 1).2.length ∧
     rowCount (createURL (createURL [] "u" 1).2 "u" 2).2 (createURL [] "u" 1).1 = 1 ∧
     lookupStore (createURL (createURL [] "u" 1).2 "u" 2).2 (generateShortURL "u") =
       some ⟨generateShortURL "u", "u", generateShortURL "u", 2⟩) :=
  ⟨by decide, createURL_idempotent [] "u" 1 2 (by decide)⟩

/-- Claim C2: looking up the id returned by `createURL u` in the store it
produced yields exactly the record whose `OriginalURL` is `u`. -/
theorem get_createURL_roundtrip (db : Store) (u : String) (t : Nat)
    (h : u ≠ "") :
    getURL (createURL db u t).2 (createURL db u t).1 =
      Except.ok ⟨generateShortURL u, u, generateShortURL u, t⟩ ∧
    ∀ r : URL, getURL (createURL db u t).2 (createURL db u t).1 = Except.ok r →
      r.OriginalURL = u := by
  have hl : lookupStore (createURL db u t).2 (createURL db u t).1 =
      some ⟨generateShortURL u, u, generateShortURL u, t⟩ :=
    lookup_insertStore_self db _ _
  have hok : getURL (createURL db u t).2 (createURL db u t).1 =
      Except.ok ⟨generateShortURL u, u, generateShortURL u, t⟩ := by
    unfold getURL
    rw [hl]
  refine ⟨hok, ?_⟩
  intro r hr
  rw [hok] at hr
  injection hr with hr
  rw [← hr]

set_option maxRecDepth 20000 in
/-- Witness for C2 at the empty store with URL `"u"` and tick 5. -/
theorem get_createURL_roundtrip_witness :
    ("u" : String) ≠ "" ∧
    (getURL (createURL [] "u" 5).2 (createURL [] "u" 5).1 =
       Except.ok ⟨generateShortURL "u", "u", generateShortURL "u", 5⟩ ∧
     ∀ r : URL, getURL (createURL [] "u" 5).2 (createURL [] "u" 5).1 =
       Except.ok r → r.OriginalURL = "u") :=
  ⟨by decide, get_createURL_roundtrip [] "u" 5 (by decide)⟩

set_option maxRecDepth 20000 in
/-- Claim C3: `generateShortURL` is a deterministic total function whose
value is always an 8-character string of lowercase hex digits, equal to
the first 8 hex characters of the MD5 digest of the URL's UTF-8 bytes;
in particular the google-search scenario URL always derives to the fixed
id `"3d6a2e60"`. -/
theorem generateShortURL_deterministic_hex (u : String) :
    (generateShortURL u).length = 8 ∧
    (∀ c ∈ (generateShortURL u).data, c ∈ hexAlphabet) ∧
    generateShortURL u = ⟨(hexChars (md5Bytes (strBytes u))).take 8⟩ ∧
    generateShortURL "https://www.google.com/search?q=golang+projects" =
      "3d6a2e60" := by
  refine ⟨generateShortURL_length u, generateShortURL_hex u, rfl, ?_⟩
  decide

/-- Claim C4: `getURL` succeeds exactly on stored ids and fails with the
not-found error exactly on absent ids; the redirect handler answers 302
with the stored original URL as `Location` when the row exists and 404
when it does not; and an id never created by any operation sequence is
never resolved. -/
theorem getURL_resolution (db : Store) (id : String) (ops : List Op)
    (hnever : ∀ u t, Op.create u t ∈ ops → generateShortURL u ≠ id) :
    (∀ r : URL, getURL db id = Except.ok r ↔ lookupStore db id = some r) ∧
    (getURL db id = Except.error "URL not found" ↔ lookupStore db id = none) ∧
    (∀ r : URL, lookupStore db id = some r →
      redirectURLHandler ("/redirect/" ++ id) db =
        ⟨302, Body.text "", some r.OriginalURL⟩) ∧
    (lookupStore db id = none →
      redirectURLHandler ("/redirect/" ++ id) db =
        ⟨404, Body.text "URL not found", none⟩) ∧
    getURL (runOps ops) id = Except.error "URL not found" := by
  have hred : redirectURLHandler ("/redirect/" ++ id) db =
      (match getURL db id with
       | .error _ => ⟨404, Body.text "URL not found", none⟩
       | .ok url => ⟨302, Body.text "", some url.OriginalURL⟩) := by
    unfold redirectURLHandler
    rw [drop_redirect_pathlen]
  refine ⟨?_, ?_, ?_, ?_, ?_⟩
  · intro r
    unfold getURL
    cases hl : lookupStore db id with
    | none => simp
    | some v => simp
  · unfold getURL
    cases hl : lookupStore db id with
    | none => simp
    | some v => simp
  · intro r hl
    rw [hred]
    unfold getURL
    rw [hl]
  · intro hl
    rw [hred]
    unfold getURL
    rw [hl]
  · unfold getURL runOps
    rw [lookup_foldl_stepStore ops [] id hnever rfl]

set_option maxRecDepth 20000 in
/-- Witness for C4: the empty store, the never-created id `"zz"`, and an
operation sequence creating only `"u"`. -/
theorem getURL_resolution_witness :
    (∀ u t, Op.create u t ∈ ([Op.create "u" 0] : List Op) →
      generateShortURL u ≠ "zz") ∧
    ((∀ r : URL, getURL [] "zz" = Except.ok r ↔ lookupStore [] "zz" = some r) ∧
     (getURL [] "zz" = Except.error "URL not found" ↔
       lookupStore [] "zz" = none) ∧
     (∀ r : URL, lookupStore [] "zz" = some r →
       redirectURLHandler ("/redirect/" ++ "zz") [] =
         ⟨302, Body.text "", some r.OriginalURL⟩) ∧
     (lookupStore [] "zz" = none →
       redirectURLHandler ("/redirect/" ++ "zz") [] =
         ⟨404, Body.text "URL not found", none⟩) ∧
     getURL (runOps [Op.create "u" 0]) "zz" =
       Except.error "URL not found") := by
  have h : ∀ u t, Op.create u t ∈ ([Op.create "u" 0] : List Op) →
      generateShortURL u ≠ "zz" := by
    intro u t hm
    rw [List.mem_singleton] at hm
    injection hm with hu ht
    subst hu
    decide
  exact ⟨h, getURL_resolution [] "zz" [Op.create "u" 0] h⟩

set_option maxRecDepth 20000 in
/-- Claim C5, counterexample: a `POST /shorten` whose body is the valid
JSON object `{}` (no `url` field) is *not* rejected: the handler answers
201, not 400, and it creates a row (for the empty URL) rather than
leaving the store unchanged. -/
theorem shorten_missing_url_cex :
    (ShortUrlHandler "POST" "\x7b\x7d" [] 0).1.status ≠ 400 ∧
    (ShortUrlHandler "POST" "\x7b\x7d" [] 0).2 ≠ [] ∧
    (ShortUrlHandler "POST" "\x7b\x7d" [] 0).1.status = 201 ∧
    (ShortUrlHandler "POST" "\x7b\x7d" [] 0).2 =
      [(generateShortURL "",
        ⟨generateShortURL "", "", generateShortURL "", 0⟩)] := by
  refine ⟨by decide, by decide, by decide, by decide⟩

/-- Claim C5, amended: a body that does not decode (non-JSON) yields
HTTP 400 and leaves the store unchanged, but a valid JSON body lacking a
`url` field decodes to the empty URL and yields 201, creating the row for
`derive("")`. -/
theorem shorten_bad_body (body : String) (db : Store) (now : Nat)
    (hbad : jsonDecodeUrl body = none) :
    ShortUrlHandler "POST" body db now =
      (⟨400, Body.text "Invalid request body", none⟩, db) ∧
    (ShortUrlHandler "POST" "\x7b\x7d" db now).1.status = 201 ∧
    (ShortUrlHandler "POST" "\x7b\x7d" db now).2 = (createURL db "" now).2 := by
  have hdec : jsonDecodeUrl "\x7b\x7d" = some "" := by decide
  refine ⟨?_, ?_, ?_⟩
  · unfold ShortUrlHandler
    simp [hbad]
  · unfold ShortUrlHandler
    simp [hdec]
  · unfold ShortUrlHandler
    simp [hdec]

/-- Witness for C5's amended theorem with the non-JSON body `"x"`. -/
theorem shorten_bad_body_witness :
    jsonDecodeUrl "x" = none ∧
    (ShortUrlHandler "POST" "x" [] 0 =
       (⟨400, Body.text "Invalid request body", none⟩, []) ∧
     (ShortUrlHandler "POST" "\x7b\x7d" [] 0).1.status = 201 ∧
     (ShortUrlHandler "POST" "\x7b\x7d" [] 0).2 = (createURL [] "" 0).2) :=
  ⟨by decide, shorten_bad_body "x" [] 0 (by decide)⟩

/-- Claim C6: `createURL` is total — it always succeeds and returns the
derived id, with no error path at all for the in-memory store — and the
`POST /shorten` handler can only answer 405, 400 or 201, never an
internal storage error. -/
theorem createURL_total_no_error (method body : String) (db : Store) (now : Nat) :
    ((ShortUrlHandler method body db now).1.status = 405 ∨
     (ShortUrlHandler method body db now).1.status = 400 ∨
     (ShortUrlHandler method body db now).1.status = 201) ∧
    ∀ u, (createURL db u now).1 = generateShortURL u := by
  constructor
  · unfold ShortUrlHandler
    by_cases hm : method = "POST"
    · subst hm
      cases hdec : jsonDecodeUrl body <;> simp [hdec]
    · simp [hm]
  · intro u
    rfl

/-- Claim C7: a well-formed `POST /shorten` whose body decodes to the URL
`u` answers 201 with a JSON body whose `short_url` is
`http://localhost:3000/redirect/<derive(u)>`, and the final path segment
of that link is exactly `derive(u)`. -/
theorem shorten_created_response (body u : String) (db : Store) (now : Nat)
    (hdec : jsonDecodeUrl body = some u) :
    (ShortUrlHandler "POST" body db now).1 =
      ⟨201, Body.jsonShortUrl
        ("http://localhost:3000/redirect/" ++ generateShortURL u), none⟩ ∧
    lastPathSegment ("http://localhost:3000/redirect/" ++ generateShortURL u) =
      generateShortURL u := by
  constructor
  · unfold ShortUrlHandler
    simp [hdec, createURL]
  · apply lastPathSegment_redirect
    intro c hc
    have hmem := generateShortURL_hex u c hc
    intro hslash
    subst hslash
    revert hmem
    decide

/-- Witness for C7 with the example body `{"url": "https://example.com"}`. -/
theorem shorten_created_response_witness :
    jsonDecodeUrl "\x7b\"url\": \"https://example.com\"\x7d" =
      some "https://example.com" ∧
    ((ShortUrlHandler "POST" "\x7b\"url\": \"https://example.com\"\x7d" [] 0).1 =
       ⟨201, Body.jsonShortUrl
         ("http://localhost:3000/redirect/" ++
           generateShortURL "https://example.com"), none⟩ ∧
     lastPathSegment ("http://localhost:3000/redirect/" ++
         generateShortURL "https://example.com") =
       generateShortURL "https://example.com") :=
  ⟨by decide,
   shorten_created_response "\x7b\"url\": \"https://example.com\"\x7d"
     "https://example.com" [] 0 (by decide)⟩

/-- Claim C8: any `/shorten` request whose method is not POST is answered
with HTTP 405 and the store is untouched. -/
theorem shorten_non_post (method body : String) (db : Store) (now : Nat)
    (h : method ≠ "POST") :
    ShortUrlHandler method body db now =
      (⟨405, Body.text "Invalid request method", none⟩, db) := by
  unfold ShortUrlHandler
  simp [h]

/-- Witness for C8 with a GET request. -/
theorem shorten_non_post_witness :
    ("GET" : String) ≠ "POST" ∧
    ShortUrlHandler "GET" "" [] 0 =
      (⟨405, Body.text "Invalid request method", none⟩, []) :=
  ⟨by decide, shorten_non_post "GET" "" [] 0 (by decide)⟩

/-- Claim C9: for every input, the hex encoding of the MD5 digest has
exactly 32 characters, so taking its first 8 characters in
`generateShortURL` is always in range and yields an 8-character id (the
Go slice `hash[:8]` cannot panic). -/
theorem generateShortURL_inbounds (u : String) :
    (hexChars (md5Bytes (strBytes u))).length = 32 ∧
    8 ≤ (hexChars (md5Bytes (strBytes u))).length ∧
    (generateShortURL u).length = 8 := by
  have h32 : (hexChars (md5Bytes (strBytes u))).length = 32 := by
    rw [hexChars_length, md5Bytes_length]
  exact ⟨h32, by omega, generateShortURL_length u⟩

/-- Claim C10: after any sequence of create and get operations from the
empty store, every entry ties its key to the record (`key = ID =
ShortURL` and `derive(OriginalURL) = key`), and `getURL` (the only other
operation) never mutates the store. -/
theorem runOps_invariant (ops : List Op) :
    storeInv (runOps ops) ∧
    ∀ (db : Store) (id : String), stepStore db (Op.get id) = db :=
  ⟨storeInv_runOps ops, fun _ _ => rfl⟩

end UrlShortener
